import Mathlib

/-!
Shallow embedding of `src/pdf_processor.py` (class `PDFProcessor`): a linear
pipeline that extracts text from a PDF page by page, groups pages into batches,
builds a prompt per batch, calls a generative model, regex-extracts a JSON
array from the reply, decodes it, and post-processes each record to carry a
`page_reference` with the input file path.

Python dictionaries decoded from JSON are modelled as ordered association
lists with dict-assignment semantics (`insertKey`); JSON values as the
inductive `Json`; the external model call as a `CallOutcome` supplied per call
index by a `world` function; Python exceptions as `Except PyErr`.
-/

namespace PdfMagic

/-- JSON values as produced by `json.loads`.  Numbers keep their source
literal (the pipeline never does arithmetic on them); objects are ordered
association lists, mirroring Python dict insertion order. -/
inductive Json where
  | null : Json
  | bool (b : Bool) : Json
  | num (lit : String) : Json
  | str (s : String) : Json
  | arr (elems : List Json) : Json
  | obj (fields : List (String × Json)) : Json
deriving Repr, Inhabited

/-- Python dict item assignment `d[k] = v`: overwrite in place if the key is
present (keeping its original position), otherwise append at the end. -/
def insertKey (k : String) (v : Json) : List (String × Json) → List (String × Json)
  | [] => [(k, v)]
  | (k', v') :: rest =>
      if k' = k then (k', v) :: rest else (k', v') :: insertKey k v rest

/-- Python dict lookup / membership test (`k in d`): first binding wins. -/
def getKey (k : String) : List (String × Json) → Option Json
  | [] => none
  | (k', v') :: rest => if k' = k then some v' else getKey k rest

/-- Outcome of reading one page: `page.get_text()` either returns text or
raises. -/
inductive PageRead where
  | ok (text : String) : PageRead
  | err : PageRead
deriving Repr, DecidableEq

/-- Python exceptions that can escape the functions of the pipeline. -/
inductive PyErr where
  | extractErr : PyErr
  | typeErr : PyErr
  | indexErr : PyErr
deriving Repr, DecidableEq

/-- Result of `_extract_text_from_pdf`, together with whether `doc.close()`
was executed before the function returned or propagated an exception. -/
structure ExtractResult where
  result : Except PyErr (List (Nat × String))
  closed : Bool
deriving Repr

/-- The page-iteration loop of `_extract_text_from_pdf`: builds the
`page_num + 1 ↦ text` mapping in document order; a raising page read is
caught by the `except` clause and re-raised, and `doc.close()` — which only
runs after the loop — is skipped on that path. -/
def extractLoop (pageNum : Nat) (acc : List (Nat × String)) :
    List PageRead → ExtractResult
  | [] => ⟨Except.ok acc, true⟩
  | PageRead.ok t :: rest => extractLoop (pageNum + 1) (acc ++ [(pageNum, t)]) rest
  | PageRead.err :: _ => ⟨Except.error PyErr.extractErr, false⟩

/-- `_extract_text_from_pdf`.  The input models the external document:
`none` means `fitz.open` itself raises (no handle exists); `some pages`
gives each page's read outcome in order. -/
def extractTextFromPdf : Option (List PageRead) → ExtractResult
  | none => ⟨Except.error PyErr.extractErr, false⟩
  | some pages => extractLoop 1 [] pages

/-- Python `str(list_of_ints)`, used by the f-string `{page_numbers}`. -/
def pyIntListRepr (ns : List Nat) : String :=
  "[" ++ String.intercalate ", " (ns.map toString) ++ "]"

/-- The per-page block of `_create_prompt`:
`"\n".join(f"TEXT FROM PAGE {num}:\n\"{text}\"" for num, text in zip(...))`. -/
def combinedText (pageTexts : List String) (pageNumbers : List Nat) : String :=
  String.intercalate "\n"
    ((pageNumbers.zip pageTexts).map
      (fun p => "TEXT FROM PAGE " ++ toString p.fst ++ ":\n\"" ++ p.snd ++ "\""))

/-- `_create_prompt`: the fixed f-string template of the source, byte for
byte (including trailing spaces inside some lines), around the page-number
list repr and the combined page text. -/
def createPrompt (pageTexts : List String) (pageNumbers : List Nat) : String :=
  "\n        The following is text extracted from pages "
    ++ pyIntListRepr pageNumbers
    ++ " of a PDF furniture catalog. \n"
    ++ "        It contains information for 1 or more products that the company sells. \n"
    ++ "        Each product can have 1 or more price tables. Extract each product on the page \n"
    ++ "        in the same language (Italian) and output the data as a JSON array, with each \n"
    ++ "        product represented as a JSON object with the attributes listed below:\n"
    ++ "        \n"
    ++ "        ATTRIBUTES:\n"
    ++ "        - product_name: name of the product\n"
    ++ "        - brand_name: name of the brand\n"
    ++ "        - designer: name of the designer\n"
    ++ "        - year: year of manufacture\n"
    ++ "        - type_of_product: type of product (e.g., sofa, table, etc.)\n"
    ++ "        - all_colors: an array of all colors mentioned for the product\n"
    ++ "        - page_reference: an object containing the PDF file path as a string and \n"
    ++ "          the page numbers of the product as an array\n"
    ++ "\n"
    ++ "        " ++ combinedText pageTexts pageNumbers ++ "\n"
    ++ "        "

/-! ## The regex `\[\s*\x7b.*\x7d\s*\]` of `_extract_json_from_response`

`re.search` with `re.DOTALL`: leftmost match wins, `.*` is greedy and spans
newlines.  The opening-brace and closing-brace characters are written via
`Char.ofNat` throughout. -/

/-- The character U+007B (opening curly brace). -/
def lbrace : Char := Char.ofNat 123

/-- The character U+007D (closing curly brace). -/
def rbrace : Char := Char.ofNat 125

/-- Python regex `\s` on the ASCII range: space, tab, newline, carriage
return, vertical tab, form feed.  (Non-ASCII Unicode whitespace is not
modelled.) -/
def isPySpace (c : Char) : Bool :=
  c = ' ' || c = '\t' || c = '\n' || c = '\r' || c = Char.ofNat 11 || c = Char.ofNat 12

/-- After a closing brace, the pattern tail `\s*\]`: since `\s` never matches
`]`, the greedy star deterministically takes the maximal whitespace run and
then requires `]`.  Returns the matched characters `\x7d ws* ]`. -/
def closeAfterBrace (cs : List Char) : Option (List Char) :=
  match cs.dropWhile isPySpace with
  | ']' :: _ => some (rbrace :: (cs.takeWhile isPySpace ++ [']']))
  | _ => none

/-- Greedy match of `.*\x7d\s*\]` against a prefix of the input: the longest
body for `.*` wins, exactly the backtracking order of the greedy star. -/
def greedyTail : List Char → Option (List Char)
  | [] => none
  | c :: rest =>
      match greedyTail rest with
      | some t => some (c :: t)
      | none => if c = rbrace then closeAfterBrace rest else none

/-- Match of the whole pattern anchored at the head of the input, returning
the matched characters (`group(0)`). -/
def matchAt : List Char → Option (List Char)
  | [] => none
  | c :: cs1 =>
      if c = '[' then
        match cs1.dropWhile isPySpace with
        | c2 :: cs2 =>
            if c2 = lbrace then
              match greedyTail cs2 with
              | some t => some ('[' :: (cs1.takeWhile isPySpace ++ (lbrace :: t)))
              | none => none
            else none
        | [] => none
      else none

/-- `re.search`: try every start position from the left; the first position
admitting a match wins. -/
def searchFrom : List Char → Option (List Char)
  | [] => none
  | c :: rest =>
      match matchAt (c :: rest) with
      | some m => some m
      | none => searchFrom rest

/-- `re.search(r'\[\s*\x7b.*\x7d\s*\]', responseText, re.DOTALL)`, returning
`group(0)`. -/
def jsonArraySearch (s : String) : Option String :=
  (searchFrom s.data).map (fun cs => String.mk cs)

/-! ## `json.loads`

A fueled recursive-descent decoder following CPython's `json` module:
whitespace is ` \t\n\r`; strings are strict (unescaped control characters
rejected, the standard escapes plus `\uXXXX` with surrogate pairing);
numbers follow `-?(0|[1-9]\d*)(\.\d+)?([eE][+-]?\d+)?` and are kept as their
literal text; the constants `NaN`, `Infinity`, `-Infinity` are accepted;
duplicate object keys follow dict assignment (last value wins); the whole
input must be consumed up to trailing whitespace. -/

/-- JSON whitespace as used by `json.loads` (` \t\n\r`). -/
def isJsonWs (c : Char) : Bool :=
  c = ' ' || c = '\t' || c = '\n' || c = '\r'

/-- Skip JSON whitespace. -/
def skipWs (cs : List Char) : List Char := cs.dropWhile isJsonWs

/-- Value of one hexadecimal digit. -/
def hexVal (c : Char) : Option Nat :=
  if '0' ≤ c ∧ c ≤ '9' then some (c.toNat - '0'.toNat)
  else if 'a' ≤ c ∧ c ≤ 'f' then some (c.toNat - 'a'.toNat + 10)
  else if 'A' ≤ c ∧ c ≤ 'F' then some (c.toNat - 'A'.toNat + 10)
  else none

/-- Decode one character of a JSON string body (a plain character or one
escape sequence), returning it with the remaining input.  A `\uXXXX` high
surrogate followed by a `\uXXXX` low surrogate is combined; a lone surrogate
(which Python keeps as an unpaired code unit, unrepresentable in `Char`) is
approximated through `Char.ofNat`'s fallback. -/
def decodeOneChar : List Char → Option (Char × List Char)
  | [] => none
  | '\\' :: esc =>
      match esc with
      | '"' :: rest => some ('"', rest)
      | '\\' :: rest => some ('\\', rest)
      | '/' :: rest => some ('/', rest)
      | 'b' :: rest => some (Char.ofNat 8, rest)
      | 'f' :: rest => some (Char.ofNat 12, rest)
      | 'n' :: rest => some ('\n', rest)
      | 'r' :: rest => some ('\r', rest)
      | 't' :: rest => some ('\t', rest)
      | 'u' :: a :: b :: c :: d :: rest =>
          match hexVal a, hexVal b, hexVal c, hexVal d with
          | some ha, some hb, some hc, some hd =>
              let n := ((ha * 16 + hb) * 16 + hc) * 16 + hd
              if 0xD800 ≤ n ∧ n ≤ 0xDBFF then
                match rest with
                | '\\' :: 'u' :: a2 :: b2 :: c2 :: d2 :: rest2 =>
                    (match hexVal a2, hexVal b2, hexVal c2, hexVal d2 with
                     | some ja, some jb, some jc, some jd =>
                         let m := ((ja * 16 + jb) * 16 + jc) * 16 + jd
                         if 0xDC00 ≤ m ∧ m ≤ 0xDFFF then
                           some (Char.ofNat (0x10000 + (n - 0xD800) * 0x400 + (m - 0xDC00)), rest2)
                         else some (Char.ofNat n, rest)
                     | _, _, _, _ => some (Char.ofNat n, rest))
                | _ => some (Char.ofNat n, rest)
              else some (Char.ofNat n, rest)
          | _, _, _, _ => none
      | _ => none
  | c :: rest => if c.toNat < 32 then none else some (c, rest)

/-- Parse the body of a JSON string after the opening quote, up to and
including the closing quote.  Each step consumes at least one character, so
fuel equal to the input length suffices. -/
def parseStringChars : Nat → List Char → Option (List Char × List Char)
  | 0, _ => none
  | _ + 1, [] => none
  | _ + 1, '"' :: rest => some ([], rest)
  | fuel + 1, cs =>
      match decodeOneChar cs with
      | none => none
      | some (ch, rest) =>
          match parseStringChars fuel rest with
          | some (s, r) => some (ch :: s, r)
          | none => none

/-- Match a literal character sequence at the head of the input. -/
def stripLit : List Char → List Char → Option (List Char)
  | [], cs => some cs
  | p :: ps, c :: cs => if c = p then stripLit ps cs else none
  | _ :: _, [] => none

/-- The integer part of a JSON number: `0` or a nonzero digit followed by
digits. -/
def parseIntDigits : List Char → Option (List Char × List Char)
  | [] => none
  | c :: rest =>
      if c = '0' then some (['0'], rest)
      else if c.isDigit then
        some (c :: rest.takeWhile Char.isDigit, rest.dropWhile Char.isDigit)
      else none

/-- The optional fraction part `\.\d+`; on no match the dot (if any) is left
unconsumed, as the regex simply matches an empty group there. -/
def parseFracDigits : List Char → List Char × List Char
  | '.' :: c :: rest =>
      if c.isDigit then
        ('.' :: c :: rest.takeWhile Char.isDigit, rest.dropWhile Char.isDigit)
      else ([], '.' :: c :: rest)
  | cs => ([], cs)

/-- The optional exponent part `[eE][-+]?\d+`; on no match nothing is
consumed. -/
def parseExpDigits : List Char → List Char × List Char
  | e :: c :: rest =>
      if e = 'e' ∨ e = 'E' then
        if c.isDigit then
          (e :: c :: rest.takeWhile Char.isDigit, rest.dropWhile Char.isDigit)
        else if c = '+' ∨ c = '-' then
          match rest with
          | d :: rest2 =>
              if d.isDigit then
                (e :: c :: d :: rest2.takeWhile Char.isDigit, rest2.dropWhile Char.isDigit)
              else ([], e :: c :: d :: rest2)
          | [] => ([], [e, c])
        else ([], e :: c :: rest)
      else ([], e :: c :: rest)
  | cs => ([], cs)

/-- A JSON number literal per CPython's `NUMBER_RE`, returned as its source
text. -/
def parseNumberLit (cs : List Char) : Option (List Char × List Char) :=
  match cs with
  | '-' :: rest =>
      match parseIntDigits rest with
      | none => none
      | some (ds, r) =>
          let (fs, r2) := parseFracDigits r
          let (es, r3) := parseExpDigits r2
          some ('-' :: (ds ++ fs ++ es), r3)
  | _ =>
      match parseIntDigits cs with
      | none => none
      | some (ds, r) =>
          let (fs, r2) := parseFracDigits r
          let (es, r3) := parseExpDigits r2
          some (ds ++ fs ++ es, r3)

/-- Parsing mode of `parseCore`: one value; an array body right after `[`;
the array element loop; the object member loop carrying the fields read so
far. -/
inductive PMode where
  | value : PMode
  | arrBody : PMode
  | elems : PMode
  | members (acc : List (String × Json)) : PMode

/-- Result of one `parseCore` run: a value, an element list, or an object
field list, depending on the mode. -/
inductive POut where
  | val (v : Json) : POut
  | list (vs : List Json) : POut
  | fields (fs : List (String × Json)) : POut

/-- The recursive core of the `json.loads` scanner, structurally recursive
on its fuel so that it evaluates by kernel reduction.

* mode `value` is `scan_once`: dispatch on the head character into string,
  array, object, the literal constants, or a number;
* mode `arrBody` handles the input right after `[`: whitespace then `]` is
  the empty array, anything else enters the element loop;
* mode `elems` is the array element loop: a value, then `,` and recursion
  or `]` to finish (so a trailing comma fails at the next value);
* mode `members acc` is the object member loop: a quoted key, `:`, a value
  (whitespace allowed around each), stored with dict-assignment semantics,
  then `,` and recursion or a closing brace to finish. -/
def parseCore : Nat → PMode → List Char → Option (POut × List Char)
  | 0, _, _ => none
  | fuel + 1, PMode.value, cs =>
      (match cs with
       | [] => none
       | c :: rest =>
          if c = '"' then
            match parseStringChars (rest.length + 1) rest with
            | some (s, r) => some (POut.val (Json.str (String.mk s)), r)
            | none => none
          else if c = '[' then
            match parseCore fuel PMode.arrBody rest with
            | some (POut.list xs, r2) => some (POut.val (Json.arr xs), r2)
            | _ => none
          else if c = lbrace then
            match skipWs rest with
            | [] => none
            | c2 :: r2 =>
                if c2 = rbrace then some (POut.val (Json.obj []), r2)
                else
                  match parseCore fuel (PMode.members []) (c2 :: r2) with
                  | some (POut.fields fs, r3) => some (POut.val (Json.obj fs), r3)
                  | _ => none
          else
            match stripLit ['t', 'r', 'u', 'e'] (c :: rest) with
            | some r => some (POut.val (Json.bool true), r)
            | none =>
            match stripLit ['f', 'a', 'l', 's', 'e'] (c :: rest) with
            | some r => some (POut.val (Json.bool false), r)
            | none =>
            match stripLit ['n', 'u', 'l', 'l'] (c :: rest) with
            | some r => some (POut.val Json.null, r)
            | none =>
            match parseNumberLit (c :: rest) with
            | some (lit, r) => some (POut.val (Json.num (String.mk lit)), r)
            | none =>
            match stripLit ['N', 'a', 'N'] (c :: rest) with
            | some r => some (POut.val (Json.num "NaN"), r)
            | none =>
            match stripLit ['I', 'n', 'f', 'i', 'n', 'i', 't', 'y'] (c :: rest) with
            | some r => some (POut.val (Json.num "Infinity"), r)
            | none =>
            match stripLit ['-', 'I', 'n', 'f', 'i', 'n', 'i', 't', 'y'] (c :: rest) with
            | some r => some (POut.val (Json.num "-Infinity"), r)
            | none => none)
  | fuel + 1, PMode.arrBody, cs =>
      (match skipWs cs with
       | ']' :: r2 => some (POut.list [], r2)
       | r => parseCore fuel PMode.elems r)
  | fuel + 1, PMode.elems, cs =>
      (match parseCore fuel PMode.value cs with
       | some (POut.val v, r) =>
          (match skipWs r with
           | ',' :: r3 =>
              (match parseCore fuel PMode.elems (skipWs r3) with
               | some (POut.list vs, r4) => some (POut.list (v :: vs), r4)
               | _ => none)
           | ']' :: r3 => some (POut.list [v], r3)
           | _ => none)
       | _ => none)
  | fuel + 1, PMode.members acc, cs =>
      (match cs with
       | '"' :: rest =>
          (match parseStringChars (rest.length + 1) rest with
           | none => none
           | some (kcs, r) =>
              match skipWs r with
              | ':' :: r3 =>
                  (match parseCore fuel PMode.value (skipWs r3) with
                   | some (POut.val v, r4) =>
                      let acc2 := insertKey (String.mk kcs) v acc
                      (match skipWs r4 with
                       | ',' :: r6 => parseCore fuel (PMode.members acc2) (skipWs r6)
                       | c :: r6 => if c = rbrace then some (POut.fields acc2, r6) else none
                       | [] => none)
                   | _ => none)
              | _ => none)
       | _ => none)

/-- `scan_once` as a function to values: mode `value` of `parseCore`. -/
def parseValue (fuel : Nat) (cs : List Char) : Option (Json × List Char) :=
  match parseCore fuel PMode.value cs with
  | some (POut.val v, r) => some (v, r)
  | _ => none

/-- `json.loads`: skip leading whitespace, parse one value, require that only
whitespace remains.  The fuel `4 * (length + 1)` is ample: every recursive
call either consumes input or descends past a consumed delimiter. -/
def jsonLoads (s : String) : Option Json :=
  match parseValue (4 * (s.data.length + 1)) (skipWs s.data) with
  | some (v, rest) => if (skipWs rest).isEmpty then some v else none
  | none => none

/-- `_extract_json_from_response`: regex-search for the array shape, then
`json.loads` on the match.  A successful decode of a match is always an
array (the match starts with `[`), so the decoded elements are returned;
decode failure or no match give `None`. -/
def extractJsonFromResponse (responseText : String) : Option (List Json) :=
  match jsonArraySearch responseText with
  | none => none
  | some sub =>
      match jsonLoads sub with
      | some (Json.arr xs) => some xs
      | _ => none

/-! ## Model call (`_parse_text_with_gemini`) -/

/-- One content part of a Gemini response. -/
structure Part where
  text : String
deriving Repr

/-- `candidate.content`. -/
structure Content where
  parts : List Part
deriving Repr

/-- One response candidate. -/
structure Candidate where
  content : Content
deriving Repr

/-- A Gemini response object. -/
structure GeminiResponse where
  candidates : List Candidate
deriving Repr

/-- Outcome of one `model.generate_content` call: the call either raises
(transport, authentication, or service error) or returns a response object
of arbitrary shape. -/
inductive CallOutcome where
  | raises : CallOutcome
  | returns (r : GeminiResponse) : CallOutcome
deriving Repr

/-- `_parse_text_with_gemini`: the whole body sits in a `try` whose `except
Exception` returns `None`, so a raising call, an empty `candidates` list, or
an empty `parts` list (both `IndexError`s inside the `try`) all yield
`None`; otherwise the first candidate's first part's text is returned. -/
def parseTextWithGemini : CallOutcome → Option String
  | CallOutcome.raises => none
  | CallOutcome.returns r =>
      match r.candidates with
      | [] => none
      | c :: _ =>
          match c.content.parts with
          | [] => none
          | p :: _ => some p.text

/-! ## Post-processing (`_process_batch`) -/

/-- The per-record post-processing loop body of `_process_batch`.  For a
dict without `page_reference`, a fresh `page_reference` is built from the
file path and `page_numbers[0]` (an `IndexError` if the batch's page-number
list were empty); for a dict whose `page_reference` is itself a dict, only
its `file_path` entry is assigned; every other shape raises a `TypeError`
(membership test on a non-container, or item assignment on a non-dict). -/
def postProcessProduct (pdfPath : String) (pageNumbers : List Nat) :
    Json → Except PyErr Json
  | Json.obj fields =>
      match getKey "page_reference" fields with
      | none =>
          (match pageNumbers with
           | [] => Except.error PyErr.indexErr
           | n :: _ =>
              Except.ok (Json.obj (insertKey "page_reference"
                (Json.obj [("file_path", Json.str pdfPath),
                           ("page_numbers", Json.arr [Json.num (toString n)])])
                fields)))
      | some (Json.obj prFields) =>
          Except.ok (Json.obj (insertKey "page_reference"
            (Json.obj (insertKey "file_path" (Json.str pdfPath) prFields))
            fields))
      | some _ => Except.error PyErr.typeErr
  | _ => Except.error PyErr.typeErr

/-- The `for product in json_batch_data` loop: records are post-processed in
order and the first raising record aborts the loop with its exception. -/
def postProcessAll (pdfPath : String) (pageNumbers : List Nat) :
    List Json → Except PyErr (List Json)
  | [] => Except.ok []
  | p :: ps =>
      match postProcessProduct pdfPath pageNumbers p with
      | Except.error e => Except.error e
      | Except.ok p' =>
          match postProcessAll pdfPath pageNumbers ps with
          | Except.error e => Except.error e
          | Except.ok ps' => Except.ok (p' :: ps')

/-- `_process_batch`: model call (a falsy response — `None` or the empty
string — yields `None`), JSON extraction (`None` or a falsy empty list
yields `None`), then post-processing, whose exceptions propagate. -/
def processBatch (pdfPath : String) (outcome : CallOutcome)
    (_pageTexts : List String) (pageNumbers : List Nat) :
    Except PyErr (Option (List Json)) :=
  match parseTextWithGemini outcome with
  | none => Except.ok none
  | some structuredData =>
      if structuredData = "" then Except.ok none
      else
        match extractJsonFromResponse structuredData with
        | none => Except.ok none
        | some [] => Except.ok none
        | some (p :: ps) =>
            match postProcessAll pdfPath pageNumbers (p :: ps) with
            | Except.error e => Except.error e
            | Except.ok ps' => Except.ok (some ps')

/-! ## Batching loop (`_process_text_batches`) and top level

The external world is modelled as a function from call index to call
outcome: the `i`-th `generate_content` call of the run gets `world i`. -/

/-- The loop of `_process_text_batches`: pages accumulate into the two
parallel batch lists; a full batch (and the nonempty remainder after the
loop) goes through `_process_batch`, whose truthy results extend the
product accumulator and whose exceptions propagate. -/
def processTextBatchesLoop (pdfPath : String) (world : Nat → CallOutcome)
    (batchSize : Nat) (callIdx : Nat) (allProducts : List Json)
    (pageTextsBatch : List String) (pageNumbersBatch : List Nat) :
    List (Nat × String) → Except PyErr (List Json)
  | [] =>
      if pageTextsBatch.isEmpty then Except.ok allProducts
      else
        match processBatch pdfPath (world callIdx) pageTextsBatch pageNumbersBatch with
        | Except.error e => Except.error e
        | Except.ok none => Except.ok allProducts
        | Except.ok (some ps) =>
            Except.ok (if ps.isEmpty then allProducts else allProducts ++ ps)
  | (pageNum, pageText) :: rest =>
      let texts := pageTextsBatch ++ [pageText]
      let nums := pageNumbersBatch ++ [pageNum]
      if texts.length = batchSize then
        match processBatch pdfPath (world callIdx) texts nums with
        | Except.error e => Except.error e
        | Except.ok none =>
            processTextBatchesLoop pdfPath world batchSize (callIdx + 1)
              allProducts [] [] rest
        | Except.ok (some ps) =>
            processTextBatchesLoop pdfPath world batchSize (callIdx + 1)
              (if ps.isEmpty then allProducts else allProducts ++ ps) [] [] rest
      else
        processTextBatchesLoop pdfPath world batchSize callIdx
          allProducts texts nums rest

/-- `_process_text_batches` with `BATCH_SIZE` as a parameter (the source
fixes it to 2 in `__init__`). -/
def processTextBatches (pdfPath : String) (world : Nat → CallOutcome)
    (batchSize : Nat) (extractedText : List (Nat × String)) :
    Except PyErr (List Json) :=
  processTextBatchesLoop pdfPath world batchSize 0 [] [] [] extractedText

/-- The `BATCH_SIZE` constant set in `__init__`. -/
def BATCH_SIZE : Nat := 2

/-- `extract_product_info`: extract the page map (its exceptions propagate
uncaught), then process it in batches. -/
def extractProductInfo (pdfPath : String) (doc : Option (List PageRead))
    (world : Nat → CallOutcome) : Except PyErr (List Json) :=
  match (extractTextFromPdf doc).result with
  | Except.error e => Except.error e
  | Except.ok extractedText => processTextBatches pdfPath world BATCH_SIZE extractedText

/-! ## Specification-side vocabulary

Pure batching and per-batch contribution functions used to state the claims
about the fused loop above; `processTextBatchesLoop` is proved equal to
their composition. -/

/-- The batch partition the loop realizes: accumulate into groups of
`batchSize`, flushing the nonempty remainder. -/
def batchLoop (batchSize : Nat) (acc : List (Nat × String)) :
    List (Nat × String) → List (List (Nat × String))
  | [] => if acc.isEmpty then [] else [acc]
  | x :: rest =>
      let acc2 := acc ++ [x]
      if acc2.length = batchSize then acc2 :: batchLoop batchSize [] rest
      else batchLoop batchSize acc2 rest

/-- The batches of a page map. -/
def toBatches (batchSize : Nat) (extractedText : List (Nat × String)) :
    List (List (Nat × String)) :=
  batchLoop batchSize [] extractedText

/-- Process a list of batches in order, batch `i` of the list receiving the
`(callIdx + i)`-th call outcome; results of successful batches are
concatenated and exceptions propagate. -/
def runBatches (pdfPath : String) (world : Nat → CallOutcome) (callIdx : Nat) :
    List (List (Nat × String)) → Except PyErr (List Json)
  | [] => Except.ok []
  | b :: bs =>
      match processBatch pdfPath (world callIdx) (b.map Prod.snd) (b.map Prod.fst) with
      | Except.error e => Except.error e
      | Except.ok none => runBatches pdfPath world (callIdx + 1) bs
      | Except.ok (some ps) =>
          match runBatches pdfPath world (callIdx + 1) bs with
          | Except.error e => Except.error e
          | Except.ok l => Except.ok (ps ++ l)

/-- The records a single batch contributes to the final result: those of a
successful truthy batch, nothing otherwise. -/
def batchRecords (pdfPath : String) (outcome : CallOutcome)
    (b : List (Nat × String)) : List Json :=
  match processBatch pdfPath outcome (b.map Prod.snd) (b.map Prod.fst) with
  | Except.ok (some ps) => ps
  | _ => []

/-- Per-batch contributions of a batch list, batch `i` using call outcome
`world (callIdx + i)`. -/
def contributions (pdfPath : String) (world : Nat → CallOutcome) (callIdx : Nat) :
    List (List (Nat × String)) → List (List Json)
  | [] => []
  | b :: bs =>
      batchRecords pdfPath (world callIdx) b :: contributions pdfPath world (callIdx + 1) bs

/-! ## Dictionary lemmas -/

theorem getKey_insertKey_self (k : String) (v : Json) :
    ∀ l, getKey k (insertKey k v l) = some v := by
  intro l
  induction l with
  | nil => simp [insertKey, getKey]
  | cons e rest ih =>
      obtain ⟨k', v'⟩ := e
      by_cases h : k' = k
      · simp [insertKey, getKey, h]
      · simp [insertKey, getKey, h, ih]

theorem getKey_insertKey_ne (k k2 : String) (v : Json) (hne : k2 ≠ k) :
    ∀ l, getKey k2 (insertKey k v l) = getKey k2 l := by
  intro l
  induction l with
  | nil =>
      simp only [insertKey, getKey]
      rw [if_neg (fun h => hne h.symm)]
  | cons e rest ih =>
      obtain ⟨k', v'⟩ := e
      by_cases h : k' = k
      · subst h
        simp only [insertKey, if_pos rfl, getKey]
        rw [if_neg (fun h => hne h.symm), if_neg (fun h => hne h.symm)]
      · simp only [insertKey, if_neg h, getKey]
        by_cases h2 : k' = k2
        · rw [if_pos h2, if_pos h2]
        · rw [if_neg h2, if_neg h2, ih]

/-! ## Batcher lemmas -/

theorem batchLoop_join (n : Nat) (xs : List (Nat × String)) :
    ∀ acc : List (Nat × String), acc.length < n →
      (batchLoop n acc xs).flatten = acc ++ xs := by
  induction xs with
  | nil =>
      intro acc _
      cases acc with
      | nil => simp [batchLoop]
      | cons a l => simp [batchLoop]
  | cons x rest ih =>
      intro acc h
      by_cases hfull : (acc ++ [x]).length = n
      · have h0 : 0 < n := by simp at hfull; omega
        simp only [batchLoop, hfull, ite_true, List.flatten]
        rw [ih [] (by simpa using h0)]
        simp
      · have hlt : (acc ++ [x]).length < n := by
          simp only [List.length_append, List.length_cons, List.length_nil] at hfull ⊢
          omega
        simp only [batchLoop, hfull, if_neg, ite_false]
        rw [ih (acc ++ [x]) hlt]
        simp

theorem batchLoop_eq_nil (n : Nat) (xs : List (Nat × String)) :
    ∀ acc : List (Nat × String), batchLoop n acc xs = [] → acc = [] ∧ xs = [] := by
  induction xs with
  | nil =>
      intro acc h
      cases acc with
      | nil => exact ⟨rfl, rfl⟩
      | cons a l => simp [batchLoop] at h
  | cons x rest ih =>
      intro acc h
      by_cases hfull : (acc ++ [x]).length = n
      · simp [batchLoop, hfull] at h
      · simp only [batchLoop, hfull, ite_false] at h
        have := (ih (acc ++ [x]) h).1
        simp at this

theorem batchLoop_length (n : Nat) (xs : List (Nat × String)) :
    ∀ acc : List (Nat × String), acc.length < n →
      (batchLoop n acc xs).length = (acc.length + xs.length + n - 1) / n := by
  induction xs with
  | nil =>
      intro acc h
      cases acc with
      | nil =>
          simp only [batchLoop, List.isEmpty_nil, ite_true, List.length_nil, Nat.add_zero,
            Nat.zero_add]
          rw [Nat.div_eq_of_lt (by omega)]
      | cons a l =>
          simp only [batchLoop, List.isEmpty_cons, Bool.false_eq_true, ite_false,
            List.length_cons, List.length_singleton, List.length_nil, Nat.add_zero]
          have h1 : 1 * n ≤ l.length + 1 + n - 1 := by omega
          have h2 : l.length + 1 + n - 1 < (1 + 1) * n := by
            simp only [List.length_cons] at h; omega
          rw [Nat.div_eq_of_lt_le h1 h2]
  | cons x rest ih =>
      intro acc h
      have hn : 0 < n := by omega
      by_cases hfull : (acc ++ [x]).length = n
      · have hlenacc : acc.length + 1 = n := by simpa using hfull
        simp only [batchLoop, hfull, ite_true, List.length_cons]
        rw [ih [] (by simpa using hn)]
        simp only [List.length_nil, Nat.zero_add]
        have harith : acc.length + (rest.length + 1) + n - 1 = rest.length + n - 1 + n := by
          omega
        rw [harith, Nat.add_div_right _ hn]
      · have hlt : (acc ++ [x]).length < n := by
          simp only [List.length_append, List.length_cons, List.length_nil] at hfull ⊢
          omega
        simp only [batchLoop, hfull, ite_false, List.length_cons]
        rw [ih (acc ++ [x]) hlt]
        have harith : (acc ++ [x]).length + rest.length + n - 1
            = acc.length + (rest.length + 1) + n - 1 := by
          simp only [List.length_append, List.length_cons, List.length_nil]
          omega
        rw [harith]

theorem batchLoop_dropLast (n : Nat) (xs : List (Nat × String)) :
    ∀ acc : List (Nat × String), acc.length < n →
      ∀ b ∈ (batchLoop n acc xs).dropLast, b.length = n := by
  induction xs with
  | nil =>
      intro acc _ b hb
      cases acc with
      | nil => simp [batchLoop] at hb
      | cons a l => simp [batchLoop] at hb
  | cons x rest ih =>
      intro acc h b hb
      have hn : 0 < n := by omega
      by_cases hfull : (acc ++ [x]).length = n
      · simp only [batchLoop, hfull, ite_true] at hb
        rcases hL : batchLoop n [] rest with _ | ⟨b1, bs1⟩
        · rw [hL] at hb; simp at hb
        · rw [hL] at hb
          rw [List.dropLast_cons₂] at hb
          rcases List.mem_cons.mp hb with hb | hb
          · subst hb; simpa using hfull
          · have := ih [] (by simpa using hn) b
            rw [hL] at this
            exact this hb
      · have hlt : (acc ++ [x]).length < n := by
          simp only [List.length_append, List.length_cons, List.length_nil] at hfull ⊢
          omega
        simp only [batchLoop, hfull, ite_false] at hb
        exact ih (acc ++ [x]) hlt b hb

theorem batchLoop_getLast (n : Nat) (xs : List (Nat × String)) :
    ∀ acc : List (Nat × String), acc.length < n →
      ∀ b, (batchLoop n acc xs).getLast? = some b →
        b.length = if (acc.length + xs.length) % n = 0 then n
                   else (acc.length + xs.length) % n := by
  induction xs with
  | nil =>
      intro acc h b hb
      cases acc with
      | nil => simp [batchLoop] at hb
      | cons a l =>
          simp only [batchLoop, List.isEmpty_cons, Bool.false_eq_true, ite_false,
            List.getLast?_singleton, Option.some.injEq] at hb
          subst hb
          simp only [List.length_cons, List.length_nil, Nat.add_zero]
          have hmod : (a :: l).length % n = (a :: l).length := Nat.mod_eq_of_lt h
          simp only [List.length_cons] at hmod
          rw [hmod, if_neg (by omega)]
  | cons x rest ih =>
      intro acc h b hb
      have hn : 0 < n := by omega
      by_cases hfull : (acc ++ [x]).length = n
      · have hlenacc : acc.length + 1 = n := by simpa using hfull
        simp only [batchLoop, hfull, ite_true] at hb
        rcases hL : batchLoop n [] rest with _ | ⟨b1, bs1⟩
        · rw [hL] at hb
          simp only [List.getLast?_singleton, Option.some.injEq] at hb
          subst hb
          have hrest : rest = [] := (batchLoop_eq_nil n rest [] hL).2
          subst hrest
          have htot : acc.length + [x].length = n := by simpa using hfull
          simp only [List.length_cons, List.length_nil] at htot ⊢
          rw [show acc.length + (0 + 1) = n by omega, Nat.mod_self, if_pos rfl]
          simpa using hfull
        · rw [hL] at hb
          rw [List.getLast?_cons_cons] at hb
          have := ih [] (by simpa using hn) b
          rw [hL] at this
          have hlen := this hb
          simp only [List.length_nil, Nat.zero_add] at hlen
          have htot : acc.length + (x :: rest).length = n + rest.length := by
            simp only [List.length_cons]; omega
          rw [htot, Nat.add_mod_left]
          exact hlen
      · have hlt : (acc ++ [x]).length < n := by
          simp only [List.length_append, List.length_cons, List.length_nil] at hfull ⊢
          omega
        simp only [batchLoop, hfull, ite_false] at hb
        have hlen := ih (acc ++ [x]) hlt b hb
        have htot : (acc ++ [x]).length + rest.length = acc.length + (x :: rest).length := by
          simp only [List.length_append, List.length_cons, List.length_nil]; omega
        rw [htot] at hlen
        exact hlen

/-! ## Fusion: the source's fused loop equals batching followed by batch
processing -/

theorem loop_eq_runBatches (path : String) (world : Nat → CallOutcome) (n : Nat)
    (rest : List (Nat × String)) :
    ∀ (acc : List (Nat × String)) (all : List Json) (i : Nat), acc.length < n →
      processTextBatchesLoop path world n i all (acc.map Prod.snd) (acc.map Prod.fst) rest =
        (runBatches path world i (batchLoop n acc rest)).map (fun l => all ++ l) := by
  induction rest with
  | nil =>
      intro acc all i _
      cases acc with
      | nil => simp [processTextBatchesLoop, batchLoop, runBatches, Except.map]
      | cons a l =>
          simp only [processTextBatchesLoop, List.map_cons, List.isEmpty_cons,
            Bool.false_eq_true, ite_false, batchLoop, runBatches]
          cases hpb : processBatch path (world i)
              ((a :: l).map Prod.snd) ((a :: l).map Prod.fst) with
          | error e =>
              simp only [List.map_cons] at hpb
              simp [hpb, Except.map]
          | ok o =>
              simp only [List.map_cons] at hpb
              cases o with
              | none => simp [hpb, runBatches, Except.map]
              | some ps =>
                  cases ps with
                  | nil => simp [hpb, runBatches, Except.map]
                  | cons p ps' => simp [hpb, runBatches, Except.map]
  | cons x rest ih =>
      intro acc all i h
      obtain ⟨xn, xt⟩ := x
      have hts : acc.map Prod.snd ++ [xt] = (acc ++ [(xn, xt)]).map Prod.snd := by simp
      have hns : acc.map Prod.fst ++ [xn] = (acc ++ [(xn, xt)]).map Prod.fst := by simp
      by_cases hfull : (acc ++ [(xn, xt)]).length = n
      · have hn : 0 < n := by simp at hfull; omega
        have hcond : (acc.map Prod.snd ++ [xt]).length = n := by
          rw [hts, List.length_map]; exact hfull
        simp only [processTextBatchesLoop, batchLoop]
        rw [if_pos hcond, if_pos hfull, hts, hns]
        simp only [runBatches]
        cases hpb : processBatch path (world i)
            ((acc ++ [(xn, xt)]).map Prod.snd) ((acc ++ [(xn, xt)]).map Prod.fst) with
        | error e => simp [hpb, Except.map]
        | ok o =>
            cases o with
            | none =>
                simp only [hpb]
                have := ih [] all (i + 1) (by simpa using hn)
                simpa using this
            | some ps =>
                simp only [hpb]
                have := ih [] (if ps.isEmpty then all else all ++ ps) (i + 1)
                  (by simpa using hn)
                simp only [List.map_nil] at this
                rw [this]
                cases hrb : runBatches path world (i + 1) (batchLoop n [] rest) with
                | error e => simp [Except.map]
                | ok l =>
                    cases ps with
                    | nil => simp [Except.map]
                    | cons p ps' => simp [Except.map]
      · have hlt : (acc ++ [(xn, xt)]).length < n := by
          simp only [List.length_append, List.length_cons, List.length_nil] at hfull ⊢
          omega
        simp only [processTextBatchesLoop, batchLoop]
        rw [hts, hns,
          if_neg (show ¬ ((acc ++ [(xn, xt)]).map Prod.snd).length = n by
            rw [List.length_map]; exact hfull),
          if_neg hfull]
        exact ih (acc ++ [(xn, xt)]) all i hlt

/-- `_process_text_batches` is batching (`toBatches`) followed by independent
per-batch processing (`runBatches`). -/
theorem processTextBatches_eq_runBatches (path : String) (world : Nat → CallOutcome)
    (n : Nat) (ext : List (Nat × String)) (hn : 0 < n) :
    processTextBatches path world n ext = runBatches path world 0 (toBatches n ext) := by
  have h := loop_eq_runBatches path world n ext [] [] 0 (by simpa using hn)
  simp only [List.map_nil] at h
  rw [processTextBatches, toBatches, h]
  cases runBatches path world 0 (batchLoop n [] ext) with
  | error e => simp [Except.map]
  | ok l => simp [Except.map]

/-- When no batch raises during post-processing, the run's result is the
concatenation of the per-batch contributions. -/
theorem runBatches_ok (path : String) (world : Nat → CallOutcome)
    (bs : List (List (Nat × String))) :
    ∀ i : Nat,
      (∀ k b, bs.get? k = some b →
        ∀ e, processBatch path (world (i + k)) (b.map Prod.snd) (b.map Prod.fst) ≠
          Except.error e) →
      runBatches path world i bs = Except.ok (contributions path world i bs).flatten := by
  induction bs with
  | nil => intro i _; simp [runBatches, contributions]
  | cons b rest ih =>
      intro i h
      have hshift : ∀ k b', rest.get? k = some b' →
          ∀ e, processBatch path (world (i + 1 + k)) (b'.map Prod.snd) (b'.map Prod.fst) ≠
            Except.error e := by
        intro k b' hk e
        have := h (k + 1) b' (by simpa using hk) e
        have harith : i + (k + 1) = i + 1 + k := by omega
        rw [harith] at this
        exact this
      cases hpb : processBatch path (world i) (b.map Prod.snd) (b.map Prod.fst) with
      | error e =>
          exact absurd hpb (by simpa using h 0 b (by simp) e)
      | ok o =>
          cases o with
          | none =>
              simp only [runBatches, hpb, contributions, batchRecords]
              rw [ih (i + 1) hshift]
              simp
          | some ps =>
              simp only [runBatches, hpb, contributions, batchRecords]
              rw [ih (i + 1) hshift]
              simp

/-! ## The `page_reference.file_path` invariant -/

/-- A record carries a `page_reference` mapping whose `file_path` equals the
given path. -/
def recordFilePathOk (pdfPath : String) : Json → Bool
  | Json.obj fields =>
      match getKey "page_reference" fields with
      | some (Json.obj prf) =>
          (match getKey "file_path" prf with
           | some (Json.str p) => decide (p = pdfPath)
           | _ => false)
      | _ => false
  | _ => false

theorem postProcessProduct_fileOk (path : String) (nums : List Nat) (p r : Json)
    (h : postProcessProduct path nums p = Except.ok r) :
    recordFilePathOk path r = true := by
  cases p with
  | obj fields =>
      simp only [postProcessProduct] at h
      rcases hpr : getKey "page_reference" fields with _ | v
      · rw [hpr] at h
        cases nums with
        | nil => simp at h
        | cons n ns =>
            simp only [Except.ok.injEq] at h
            subst h
            simp only [recordFilePathOk, getKey_insertKey_self]
            simp [getKey]
      · rw [hpr] at h
        cases v with
        | obj prf =>
            simp only [Except.ok.injEq] at h
            subst h
            simp only [recordFilePathOk, getKey_insertKey_self]
            simp [getKey_insertKey_self]
        | null => simp at h
        | bool b => simp at h
        | num l => simp at h
        | str s => simp at h
        | arr xs => simp at h
  | null => simp [postProcessProduct] at h
  | bool b => simp [postProcessProduct] at h
  | num l => simp [postProcessProduct] at h
  | str s => simp [postProcessProduct] at h
  | arr xs => simp [postProcessProduct] at h

theorem postProcessAll_fileOk (path : String) (nums : List Nat) :
    ∀ ps l, postProcessAll path nums ps = Except.ok l →
      ∀ r ∈ l, recordFilePathOk path r = true := by
  intro ps
  induction ps with
  | nil =>
      intro l h r hr
      simp only [postProcessAll, Except.ok.injEq] at h
      subst h
      simp at hr
  | cons p ps ih =>
      intro l h r hr
      simp only [postProcessAll] at h
      rcases hp : postProcessProduct path nums p with e | p'
      · rw [hp] at h; simp at h
      · rw [hp] at h
        rcases hps : postProcessAll path nums ps with e | ps'
        · rw [hps] at h; simp at h
        · rw [hps] at h
          simp only [Except.ok.injEq] at h
          subst h
          rcases List.mem_cons.mp hr with hr | hr
          · subst hr; exact postProcessProduct_fileOk path nums p r hp
          · exact ih ps' hps r hr

theorem processBatch_fileOk (path : String) (outcome : CallOutcome)
    (texts : List String) (nums : List Nat) (ps : List Json)
    (h : processBatch path outcome texts nums = Except.ok (some ps)) :
    ∀ r ∈ ps, recordFilePathOk path r = true := by
  simp only [processBatch] at h
  split at h
  · simp at h
  · split at h
    · simp at h
    · split at h
      · simp at h
      · simp at h
      · split at h
        · simp at h
        · rename_i hpp
          simp only [Except.ok.injEq, Option.some.injEq] at h
          subst h
          exact postProcessAll_fileOk path nums _ _ hpp

theorem runBatches_fileOk (path : String) (world : Nat → CallOutcome) :
    ∀ (bs : List (List (Nat × String))) (i : Nat) (L : List Json),
      runBatches path world i bs = Except.ok L →
      ∀ r ∈ L, recordFilePathOk path r = true := by
  intro bs
  induction bs with
  | nil =>
      intro i L h r hr
      simp only [runBatches, Except.ok.injEq] at h
      subst h
      simp at hr
  | cons b rest ih =>
      intro i L h r hr
      simp only [runBatches] at h
      rcases hpb : processBatch path (world i) (b.map Prod.snd) (b.map Prod.fst)
        with e | o
      · rw [hpb] at h; simp at h
      · rw [hpb] at h
        cases o with
        | none => exact ih (i + 1) L h r hr
        | some ps =>
            rcases hrb : runBatches path world (i + 1) rest with e | l
            · rw [hrb] at h; simp at h
            · rw [hrb] at h
              simp only [Except.ok.injEq] at h
              subst h
              rcases List.mem_append.mp hr with hr | hr
              · exact processBatch_fileOk path (world i) (b.map Prod.snd)
                  (b.map Prod.fst) ps hpb r hr
              · exact ih (i + 1) l hrb r hr

theorem extractProductInfo_fileOk (path : String) (doc : Option (List PageRead))
    (world : Nat → CallOutcome) (L : List Json)
    (h : extractProductInfo path doc world = Except.ok L) :
    ∀ r ∈ L, recordFilePathOk path r = true := by
  simp only [extractProductInfo] at h
  split at h
  · simp at h
  · rename_i ext _
    rw [processTextBatches_eq_runBatches path world BATCH_SIZE ext (by decide)] at h
    exact runBatches_fileOk path world (toBatches BATCH_SIZE ext) 0 L h

/-! ## Shape lemmas for the response parser -/

theorem matchAt_head (cs m : List Char) (h : matchAt cs = some m) :
    ∃ t, m = '[' :: t := by
  cases cs with
  | nil => simp [matchAt] at h
  | cons c cs1 =>
      simp only [matchAt] at h
      split at h
      · split at h
        · split at h
          · split at h
            · simp only [Option.some.injEq] at h
              exact ⟨_, h.symm⟩
            · simp at h
          · simp at h
        · simp at h
      · simp at h

theorem searchFrom_head (cs : List Char) :
    ∀ m, searchFrom cs = some m → ∃ t, m = '[' :: t := by
  induction cs with
  | nil => intro m h; simp [searchFrom] at h
  | cons c rest ih =>
      intro m h
      simp only [searchFrom] at h
      rcases hm : matchAt (c :: rest) with _ | m'
      · rw [hm] at h
        exact ih m h
      · rw [hm] at h
        simp only [Option.some.injEq] at h
        subst h
        exact matchAt_head (c :: rest) m' hm

theorem jsonArraySearch_head (s : String) (sub : String)
    (h : jsonArraySearch s = some sub) : ∃ t, sub.data = '[' :: t := by
  simp only [jsonArraySearch, Option.map_eq_some'] at h
  obtain ⟨cs, hcs, hsub⟩ := h
  obtain ⟨t, ht⟩ := searchFrom_head s.data cs hcs
  exact ⟨t, by rw [← hsub, ht]⟩

theorem parseValue_bracket_arr (fuel : Nat) (t : List Char) (v : Json)
    (r : List Char) (h : parseValue fuel ('[' :: t) = some (v, r)) :
    ∃ xs, v = Json.arr xs := by
  cases fuel with
  | zero => simp [parseValue, parseCore] at h
  | succ fuel =>
      have heq : parseCore (fuel + 1) PMode.value ('[' :: t) =
          (match parseCore fuel PMode.arrBody t with
           | some (POut.list xs, r2) => some (POut.val (Json.arr xs), r2)
           | _ => none) := rfl
      simp only [parseValue, heq] at h
      rcases hab : parseCore fuel PMode.arrBody t with _ | ⟨o, r2⟩
      · rw [hab] at h; simp at h
      · rw [hab] at h
        cases o with
        | val v' => simp at h
        | fields fs => simp at h
        | list xs =>
            simp only [Option.some.injEq, Prod.mk.injEq] at h
            exact ⟨xs, h.1.symm⟩

theorem jsonLoads_bracket_arr (sub : String) (t : List Char) (v : Json)
    (hdata : sub.data = '[' :: t) (h : jsonLoads sub = some v) :
    ∃ xs, v = Json.arr xs := by
  simp only [jsonLoads, hdata] at h
  have hskip : skipWs ('[' :: t) = '[' :: t := by
    simp [skipWs, List.dropWhile, isJsonWs]
  rw [hskip] at h
  split at h
  · rename_i v' rest hp
    obtain ⟨xs, hxs⟩ := parseValue_bracket_arr _ t v' rest hp
    split at h
    · simp only [Option.some.injEq] at h
      exact ⟨xs, by rw [← h, hxs]⟩
    · simp at h
  · simp at h

/-! ## Claim theorems -/

/-- C1 counterexample: a decoded record that does contain a `page_reference`
key, but with a non-mapping value, is not merely updated in `file_path` —
post-processing raises a `TypeError` instead, so the claim as stated fails
at this record. -/
theorem C1_counterexample_nonmapping_page_reference :
    postProcessProduct "catalog.pdf" [1, 2]
      (Json.obj [("product_name", Json.str "Sofa X"), ("page_reference", Json.num "5")]) =
      Except.error PyErr.typeErr := rfl

/-- C1 (amended): for every decoded product record whose `page_reference`
value is itself a mapping, post-processing only reassigns
`page_reference.file_path` to the run's input path and leaves
`page_numbers` and every other field unchanged; and every record emitted by
the pipeline carries `page_reference.file_path` equal to the input path. -/
theorem C1_page_reference_frame_and_invariant :
    (∀ (path : String) (nums : List Nat) (fields prf : List (String × Json)),
      getKey "page_reference" fields = some (Json.obj prf) →
      ∃ fields2,
        postProcessProduct path nums (Json.obj fields) = Except.ok (Json.obj fields2) ∧
        (∀ k, k ≠ "page_reference" → getKey k fields2 = getKey k fields) ∧
        ∃ prf2, getKey "page_reference" fields2 = some (Json.obj prf2) ∧
          getKey "file_path" prf2 = some (Json.str path) ∧
          getKey "page_numbers" prf2 = getKey "page_numbers" prf ∧
          (∀ k, k ≠ "file_path" → getKey k prf2 = getKey k prf)) ∧
    (∀ (path : String) (doc : Option (List PageRead)) (world : Nat → CallOutcome)
        (L : List Json), extractProductInfo path doc world = Except.ok L →
      ∀ r ∈ L, recordFilePathOk path r = true) := by
  constructor
  · intro path nums fields prf h
    refine ⟨insertKey "page_reference"
      (Json.obj (insertKey "file_path" (Json.str path) prf)) fields, ?_, ?_, ?_⟩
    · simp [postProcessProduct, h]
    · intro k hk
      exact getKey_insertKey_ne _ _ _ hk _
    · refine ⟨insertKey "file_path" (Json.str path) prf,
        getKey_insertKey_self _ _ _, getKey_insertKey_self _ _ _, ?_, ?_⟩
      · exact getKey_insertKey_ne _ _ _ (by decide) _
      · intro k hk
        exact getKey_insertKey_ne _ _ _ hk _
  · exact extractProductInfo_fileOk

/-- C1 witness: both halves of the theorem applied at concrete inputs — the
frame half on a record whose model-supplied `page_reference` names page 7 of
another file, the invariant half on a one-page run whose model reply carries
no `page_reference`. -/
theorem C1_page_reference_frame_and_invariant_witness :
    (∃ fields2,
      postProcessProduct "catalog.pdf" [1, 2]
        (Json.obj [("product_name", Json.str "Sofa X"),
          ("page_reference", Json.obj [("file_path", Json.str "old.pdf"),
            ("page_numbers", Json.arr [Json.num "7"])])]) =
        Except.ok (Json.obj fields2) ∧
      (∀ k, k ≠ "page_reference" →
        getKey k fields2 = getKey k [("product_name", Json.str "Sofa X"),
          ("page_reference", Json.obj [("file_path", Json.str "old.pdf"),
            ("page_numbers", Json.arr [Json.num "7"])])]) ∧
      ∃ prf2, getKey "page_reference" fields2 = some (Json.obj prf2) ∧
        getKey "file_path" prf2 = some (Json.str "catalog.pdf") ∧
        getKey "page_numbers" prf2 =
          getKey "page_numbers" [("file_path", Json.str "old.pdf"),
            ("page_numbers", Json.arr [Json.num "7"])] ∧
        (∀ k, k ≠ "file_path" →
          getKey k prf2 = getKey k [("file_path", Json.str "old.pdf"),
            ("page_numbers", Json.arr [Json.num "7"])])) ∧
    (∀ r ∈ [Json.obj [("a", Json.num "1"),
        ("page_reference", Json.obj [("file_path", Json.str "f.pdf"),
          ("page_numbers", Json.arr [Json.num "1"])])]],
      recordFilePathOk "f.pdf" r = true) :=
  ⟨C1_page_reference_frame_and_invariant.1 "catalog.pdf" [1, 2] _ _ rfl,
   C1_page_reference_frame_and_invariant.2 "f.pdf" (some [PageRead.ok "t"])
     (fun _ => CallOutcome.returns ⟨[⟨⟨[⟨"[\x7b\"a\": 1\x7d]"⟩]⟩⟩]⟩) _ rfl⟩

/-- C2: for a page map with `P` pages and batch size `n > 0`, the batching
stage yields exactly `⌈P/n⌉` batches of parallel equal-length text/number
sequences, all of size `n` except the last, whose size is `P mod n` (or `n`
when the remainder is zero); concatenating the batches restores the page
map (hence its page numbers in order, each exactly once); zero pages give
zero batches and the pipeline's final result is the empty sequence. -/
theorem C2_batcher_partition (n : Nat) (hn : 0 < n) (xs : List (Nat × String)) :
    (toBatches n xs).length = (xs.length + n - 1) / n ∧
    (toBatches n xs).flatten = xs ∧
    (∀ b ∈ toBatches n xs, (b.map Prod.snd).length = (b.map Prod.fst).length) ∧
    (∀ b ∈ (toBatches n xs).dropLast, b.length = n) ∧
    (∀ b, (toBatches n xs).getLast? = some b →
      b.length = if xs.length % n = 0 then n else xs.length % n) ∧
    ((toBatches n xs).map (fun b => b.map Prod.fst)).flatten = xs.map Prod.fst ∧
    toBatches n ([] : List (Nat × String)) = [] ∧
    (∀ path world, extractProductInfo path (some []) world = Except.ok []) := by
  have h0 : ([] : List (Nat × String)).length < n := by simpa using hn
  refine ⟨?_, ?_, ?_, ?_, ?_, ?_, ?_, ?_⟩
  · have := batchLoop_length n xs [] h0
    simpa [toBatches] using this
  · have := batchLoop_join n xs [] h0
    simpa [toBatches] using this
  · intro b _; simp
  · exact batchLoop_dropLast n xs [] h0
  · intro b hb
    have := batchLoop_getLast n xs [] h0 b hb
    simpa using this
  · have hj := batchLoop_join n xs [] h0
    simp only [List.nil_append] at hj
    rw [← List.map_flatten, (show (toBatches n xs).flatten = xs from hj)]
  · simp [toBatches, batchLoop]
  · intro path world; rfl

/-- C2 witness: the theorem at batch size 2 on the three-page map
`[(1, "a"), (2, "b"), (3, "c")]`. -/
theorem C2_batcher_partition_witness :
    (0 : Nat) < 2 ∧
    ((toBatches 2 [(1, "a"), (2, "b"), (3, "c")]).length =
        (([(1, "a"), (2, "b"), (3, "c")] : List (Nat × String)).length + 2 - 1) / 2 ∧
      (toBatches 2 [(1, "a"), (2, "b"), (3, "c")]).flatten = [(1, "a"), (2, "b"), (3, "c")] ∧
      (∀ b ∈ toBatches 2 [(1, "a"), (2, "b"), (3, "c")],
        (b.map Prod.snd).length = (b.map Prod.fst).length) ∧
      (∀ b ∈ (toBatches 2 [(1, "a"), (2, "b"), (3, "c")]).dropLast, b.length = 2) ∧
      (∀ b, (toBatches 2 [(1, "a"), (2, "b"), (3, "c")]).getLast? = some b →
        b.length = if ([(1, "a"), (2, "b"), (3, "c")] : List (Nat × String)).length % 2 = 0
                   then 2
                   else ([(1, "a"), (2, "b"), (3, "c")] : List (Nat × String)).length % 2) ∧
      ((toBatches 2 [(1, "a"), (2, "b"), (3, "c")]).map (fun b => b.map Prod.fst)).flatten =
        ([(1, "a"), (2, "b"), (3, "c")] : List (Nat × String)).map Prod.fst ∧
      toBatches 2 ([] : List (Nat × String)) = [] ∧
      (∀ path world, extractProductInfo path (some []) world = Except.ok [])) :=
  ⟨by decide, C2_batcher_partition 2 (by decide) [(1, "a"), (2, "b"), (3, "c")]⟩

/-- C3: the response parser returns the JSON decode of the first (leftmost,
greedy, dot-matches-newline) substring of the bracket-delimited
array-of-objects shape when it decodes — necessarily a JSON array, whose
elements it returns — and the `None` signal both when no such substring
exists and when decoding fails; on the Sofa X sample it returns the
one-record array, and on text without any such substring it returns `None`
without raising. -/
theorem C3_response_parser_contract :
    (∀ s, jsonArraySearch s = none → extractJsonFromResponse s = none) ∧
    (∀ s sub, jsonArraySearch s = some sub → jsonLoads sub = none →
      extractJsonFromResponse s = none) ∧
    (∀ s sub v, jsonArraySearch s = some sub → jsonLoads sub = some v →
      ∃ xs, v = Json.arr xs ∧ extractJsonFromResponse s = some xs) ∧
    extractJsonFromResponse "Sure! Here is the data: [\x7b\"product_name\": \"Sofa X\"\x7d]" =
      some [Json.obj [("product_name", Json.str "Sofa X")]] ∧
    extractJsonFromResponse "There is no data to extract on these pages." = none := by
  refine ⟨?_, ?_, ?_, rfl, rfl⟩
  · intro s h
    simp [extractJsonFromResponse, h]
  · intro s sub h1 h2
    simp [extractJsonFromResponse, h1, h2]
  · intro s sub v h1 h2
    obtain ⟨t, ht⟩ := jsonArraySearch_head s sub h1
    obtain ⟨xs, hxs⟩ := jsonLoads_bracket_arr sub t v ht h2
    subst hxs
    exact ⟨xs, rfl, by simp [extractJsonFromResponse, h1, h2]⟩

/-- C3 witness: the decode clause of the theorem applied to the Sofa X
response and its regex match. -/
theorem C3_response_parser_contract_witness :
    ∃ xs, Json.arr [Json.obj [("product_name", Json.str "Sofa X")]] = Json.arr xs ∧
      extractJsonFromResponse
        "Sure! Here is the data: [\x7b\"product_name\": \"Sofa X\"\x7d]" = some xs :=
  C3_response_parser_contract.2.2.1
    "Sure! Here is the data: [\x7b\"product_name\": \"Sofa X\"\x7d]"
    "[\x7b\"product_name\": \"Sofa X\"\x7d]"
    (Json.arr [Json.obj [("product_name", Json.str "Sofa X")]]) rfl rfl

/-- C4: a raising model call is caught and converted to the `None` signal
inside `_parse_text_with_gemini`; a batch whose call raises yields
`Except.ok none` from `_process_batch` (no exception reaches the pipeline
caller) and contributes zero records; and whenever no batch raises during
post-processing, the run returns the concatenation of the per-batch
contributions, each batch processed independently in order. -/
theorem C4_model_errors_isolated :
    parseTextWithGemini CallOutcome.raises = none ∧
    (∀ (path : String) (texts : List String) (nums : List Nat),
      processBatch path CallOutcome.raises texts nums = Except.ok none) ∧
    (∀ (path : String) (b : List (Nat × String)),
      batchRecords path CallOutcome.raises b = []) ∧
    (∀ (path : String) (world : Nat → CallOutcome) (n : Nat) (ext : List (Nat × String)),
      0 < n →
      (∀ k b, (toBatches n ext).get? k = some b →
        ∀ e, processBatch path (world k) (b.map Prod.snd) (b.map Prod.fst) ≠
          Except.error e) →
      processTextBatches path world n ext =
        Except.ok (contributions path world 0 (toBatches n ext)).flatten) := by
  refine ⟨rfl, ?_, ?_, ?_⟩
  · intro path texts nums; rfl
  · intro path b; rfl
  · intro path world n ext hn hno
    rw [processTextBatches_eq_runBatches path world n ext hn]
    apply runBatches_ok
    intro k b hk e
    have := hno k b hk e
    simpa using this

/-- C4 witness: a three-page run at batch size 2 whose every model call
raises; the hypothesis that no batch raises in post-processing is
discharged since raising batches reduce to `Except.ok none`. -/
theorem C4_model_errors_isolated_witness :
    (0 : Nat) < 2 ∧
    processTextBatches "f.pdf" (fun _ => CallOutcome.raises) 2 [(1, "a"), (2, "b"), (3, "c")] =
      Except.ok (contributions "f.pdf" (fun _ => CallOutcome.raises) 0
        (toBatches 2 [(1, "a"), (2, "b"), (3, "c")])).flatten :=
  ⟨by decide, C4_model_errors_isolated.2.2.2 "f.pdf" (fun _ => CallOutcome.raises) 2
    [(1, "a"), (2, "b"), (3, "c")] (by decide)
    (fun _ _ _ _ hcontra => by simp [processBatch, parseTextWithGemini] at hcontra)⟩

/-- C5: evaluation of the extractor at the failing input — a document that
opens and whose second page read raises — shows the error propagating with
`closed = false` (no `finally` guards `doc.close()`), against the claim
that the handle is released on failure paths; on full success the handle is
closed. -/
theorem C5_close_skipped_on_read_failure :
    (extractTextFromPdf (some [PageRead.ok "page one", PageRead.err])).result =
      Except.error PyErr.extractErr ∧
    (extractTextFromPdf (some [PageRead.ok "page one", PageRead.err])).closed = false ∧
    (extractTextFromPdf (some [PageRead.ok "a", PageRead.ok "b"])).result =
      Except.ok [(1, "a"), (2, "b")] ∧
    (extractTextFromPdf (some [PageRead.ok "a", PageRead.ok "b"])).closed = true :=
  ⟨rfl, rfl, rfl, rfl⟩

/-- C6: a decoded record without a `page_reference` key gets one synthesized
from the run's input path and the first page number of its batch, all other
fields unchanged. -/
theorem C6_page_reference_fallback (path : String) (n : Nat) (ns : List Nat)
    (fields : List (String × Json)) (h : getKey "page_reference" fields = none) :
    ∃ fields2,
      postProcessProduct path (n :: ns) (Json.obj fields) = Except.ok (Json.obj fields2) ∧
      getKey "page_reference" fields2 =
        some (Json.obj [("file_path", Json.str path),
          ("page_numbers", Json.arr [Json.num (toString n)])]) ∧
      (∀ k, k ≠ "page_reference" → getKey k fields2 = getKey k fields) := by
  refine ⟨insertKey "page_reference"
    (Json.obj [("file_path", Json.str path),
      ("page_numbers", Json.arr [Json.num (toString n)])]) fields, ?_, ?_, ?_⟩
  · simp [postProcessProduct, h]
  · exact getKey_insertKey_self _ _ _
  · intro k hk
    exact getKey_insertKey_ne _ _ _ hk _

/-- C6 witness: the fallback on a one-field record in the batch of pages
3 and 4. -/
theorem C6_page_reference_fallback_witness :
    ∃ fields2,
      postProcessProduct "catalog.pdf" [3, 4]
        (Json.obj [("product_name", Json.str "Chair")]) = Except.ok (Json.obj fields2) ∧
      getKey "page_reference" fields2 =
        some (Json.obj [("file_path", Json.str "catalog.pdf"),
          ("page_numbers", Json.arr [Json.num (toString 3)])]) ∧
      (∀ k, k ≠ "page_reference" →
        getKey k fields2 = getKey k [("product_name", Json.str "Chair")]) :=
  C6_page_reference_fallback "catalog.pdf" 3 [4] [("product_name", Json.str "Chair")] rfl

/-- C7: any failure to open or read the document propagates out of
`extract_product_info` unchanged — the run aborts with the error and no
batch result is returned; in particular an unopenable document aborts the
run. -/
theorem C7_extraction_failure_fatal :
    (∀ (path : String) (doc : Option (List PageRead)) (world : Nat → CallOutcome)
        (e : PyErr), (extractTextFromPdf doc).result = Except.error e →
      extractProductInfo path doc world = Except.error e) ∧
    (∀ (path : String) (world : Nat → CallOutcome),
      extractProductInfo path none world = Except.error PyErr.extractErr) := by
  constructor
  · intro path doc world e h
    simp [extractProductInfo, h]
  · intro path world; rfl

/-- C7 witness: a document whose first page read raises aborts the whole
run with the extraction error. -/
theorem C7_extraction_failure_fatal_witness :
    (extractTextFromPdf (some [PageRead.err])).result = Except.error PyErr.extractErr ∧
    extractProductInfo "f.pdf" (some [PageRead.err]) (fun _ => CallOutcome.raises) =
      Except.error PyErr.extractErr :=
  ⟨rfl, C7_extraction_failure_fatal.1 "f.pdf" (some [PageRead.err])
    (fun _ => CallOutcome.raises) PyErr.extractErr rfl⟩

/-- C8: the prompt builder is a pure function of the page texts and page
numbers alone — equal inputs give byte-identical prompts. -/
theorem C8_create_prompt_deterministic (t1 t2 : List String) (n1 n2 : List Nat)
    (ht : t1 = t2) (hn : n1 = n2) : createPrompt t1 n1 = createPrompt t2 n2 := by
  rw [ht, hn]

/-- C8 witness: the theorem at a concrete one-page batch. -/
theorem C8_create_prompt_deterministic_witness :
    createPrompt ["Sedia rossa, design 2001"] [1] =
      createPrompt ["Sedia rossa, design 2001"] [1] :=
  C8_create_prompt_deterministic ["Sedia rossa, design 2001"]
    ["Sedia rossa, design 2001"] [1] [1] rfl rfl

/-- C9: post-processing raises a `TypeError` on any decoded element that is
not an object and on any object whose `page_reference` value is not a
mapping; it is total on lists of objects whose `page_reference` is absent
or a mapping; and such a `TypeError` propagates out of the entire
extraction run, as evaluated on a run whose model reply decodes to
`[⟨"page_reference": 5⟩]`. -/
theorem C9_post_process_partiality :
    (∀ (path : String) (nums : List Nat) (p : Json), (∀ fs, p ≠ Json.obj fs) →
      postProcessProduct path nums p = Except.error PyErr.typeErr) ∧
    (∀ (path : String) (nums : List Nat) (fields : List (String × Json)) (v : Json),
      getKey "page_reference" fields = some v → (∀ fs, v ≠ Json.obj fs) →
      postProcessProduct path nums (Json.obj fields) = Except.error PyErr.typeErr) ∧
    (∀ (path : String) (n : Nat) (ns : List Nat) (ps : List Json),
      (∀ p ∈ ps, ∃ fs, p = Json.obj fs ∧
        (getKey "page_reference" fs = none ∨
         ∃ prf, getKey "page_reference" fs = some (Json.obj prf))) →
      ∃ l, postProcessAll path (n :: ns) ps = Except.ok l) ∧
    extractProductInfo "f.pdf" (some [PageRead.ok "t"])
      (fun _ => CallOutcome.returns ⟨[⟨⟨[⟨"[\x7b\"page_reference\": 5\x7d]"⟩]⟩⟩]⟩) =
      Except.error PyErr.typeErr := by
  refine ⟨?_, ?_, ?_, rfl⟩
  · intro path nums p hp
    cases p with
    | obj fs => exact absurd rfl (hp fs)
    | null => rfl
    | bool b => rfl
    | num l => rfl
    | str s => rfl
    | arr xs => rfl
  · intro path nums fields v h hv
    cases v with
    | obj prf => exact absurd rfl (hv prf)
    | null => simp [postProcessProduct, h]
    | bool b => simp [postProcessProduct, h]
    | num l => simp [postProcessProduct, h]
    | str s => simp [postProcessProduct, h]
    | arr xs => simp [postProcessProduct, h]
  · intro path n ns ps
    induction ps with
    | nil => intro _; exact ⟨[], rfl⟩
    | cons p ps ih =>
        intro hps
        obtain ⟨fs, hp, hpr⟩ := hps p (by simp)
        subst hp
        obtain ⟨l, hl⟩ := ih (fun q hq => hps q (by simp [hq]))
        rcases hpr with hnone | ⟨prf, hsome⟩
        · exact ⟨Json.obj (insertKey "page_reference"
            (Json.obj [("file_path", Json.str path),
              ("page_numbers", Json.arr [Json.num (toString n)])]) fs) :: l,
            by simp [postProcessAll, postProcessProduct, hnone, hl]⟩
        · exact ⟨Json.obj (insertKey "page_reference"
            (Json.obj (insertKey "file_path" (Json.str path) prf)) fs) :: l,
            by simp [postProcessAll, postProcessProduct, hsome, hl]⟩

/-- C9 witness: the three quantified clauses applied at concrete inputs — a
numeric element, an object whose `page_reference` is an array, and a
well-formed singleton list. -/
theorem C9_post_process_partiality_witness :
    postProcessProduct "f.pdf" [1] (Json.num "5") = Except.error PyErr.typeErr ∧
    postProcessProduct "f.pdf" [1] (Json.obj [("page_reference", Json.arr [])]) =
      Except.error PyErr.typeErr ∧
    ∃ l, postProcessAll "f.pdf" [1] [Json.obj [("a", Json.num "1")]] = Except.ok l :=
  ⟨C9_post_process_partiality.1 "f.pdf" [1] (Json.num "5") (fun _ h => nomatch h),
   C9_post_process_partiality.2.1 "f.pdf" [1] [("page_reference", Json.arr [])]
     (Json.arr []) rfl (fun _ h => nomatch h),
   C9_post_process_partiality.2.2.1 "f.pdf" 1 [] [Json.obj [("a", Json.num "1")]]
     (by
       intro p hp
       simp only [List.mem_singleton] at hp
       subst hp
       exact ⟨[("a", Json.num "1")], rfl, Or.inl rfl⟩)⟩

/-- C10: the model caller never raises for any response shape — an empty
`candidates` list or an empty first-candidate `parts` list hit the caught
`IndexError` and give `None`, and every outcome yields either `None` or
some response text. -/
theorem C10_gemini_caller_total :
    (∀ r : GeminiResponse, r.candidates = [] →
      parseTextWithGemini (CallOutcome.returns r) = none) ∧
    (∀ (r : GeminiResponse) (c : Candidate) (cs : List Candidate),
      r.candidates = c :: cs → c.content.parts = [] →
      parseTextWithGemini (CallOutcome.returns r) = none) ∧
    (∀ outcome, parseTextWithGemini outcome = none ∨
      ∃ t, parseTextWithGemini outcome = some t) := by
  refine ⟨?_, ?_, ?_⟩
  · intro r h
    simp [parseTextWithGemini, h]
  · intro r c cs h hp
    simp [parseTextWithGemini, h, hp]
  · intro outcome
    cases outcome with
    | raises => exact Or.inl rfl
    | returns r =>
        cases hr : r.candidates with
        | nil => exact Or.inl (by simp [parseTextWithGemini, hr])
        | cons c cs =>
            cases hc : c.content.parts with
            | nil => exact Or.inl (by simp [parseTextWithGemini, hr, hc])
            | cons p ps => exact Or.inr ⟨p.text, by simp [parseTextWithGemini, hr, hc]⟩

/-- C10 witness: the theorem at a response with no candidates, one with a
partless candidate, and the raising outcome. -/
theorem C10_gemini_caller_total_witness :
    parseTextWithGemini (CallOutcome.returns ⟨[]⟩) = none ∧
    parseTextWithGemini (CallOutcome.returns ⟨[⟨⟨[]⟩⟩]⟩) = none ∧
    (parseTextWithGemini CallOutcome.raises = none ∨
      ∃ t, parseTextWithGemini CallOutcome.raises = some t) :=
  ⟨C10_gemini_caller_total.1 ⟨[]⟩ rfl,
   C10_gemini_caller_total.2.1 ⟨[⟨⟨[]⟩⟩]⟩ ⟨⟨[]⟩⟩ [] rfl rfl,
   C10_gemini_caller_total.2.2 CallOutcome.raises⟩

end PdfMagic
